import Mathlib

/-!
Verification of the adaptive histogram-binning and highlight-placement routine
of `weatherflash.py` (`WeatherFlash.order_of_mag`, `WeatherFlash.roundn`,
`WeatherFlash.create_hist`), the procedure the design document calls
`compute_histogram`.

The embedding is shallow: the float arithmetic of the source is modelled by
exact rational arithmetic (`ℚ`), `np.floor(np.log10 |x|)` by an executable
integer base-10 logarithm (`intLog10`, proved below to agree with
`⌊Real.logb 10 x⌋`), `np.arange` / `np.histogram` / `np.where` by the list
functions `arange` / `histCounts` / `lastIdxLE`, and the pandas frame by a
column-labelled table of optional rationals (`DF`, `none` standing for NaN).
Paths on which the Python code raises (absent column, empty data,
`max` of an empty array, `.loc` key misses, empty `np.where` result) are the
`Except.error` outcomes of `create_hist`, tagged by the error taxonomy of the
specification.
-/

attribute [local semireducible] Rat.add Rat.mul Rat.inv Rat.sub

/-- Fuel-driven floor logarithm base 10 on naturals: greatest `k` with
`10 ^ k ≤ n`, for `1 ≤ n ≤ fuel`. Structural in the fuel so that concrete
runs reduce inside the kernel. -/
def natLog10A : ℕ → ℕ → ℕ
  | 0, _ => 0
  | fuel + 1, n => if n < 10 then 0 else natLog10A fuel (n / 10) + 1

/-- Greatest `k` with `10 ^ k ≤ n` (and `0` for `n = 0`). -/
def natLog10 (n : ℕ) : ℕ := natLog10A n n

/-- Fuel-driven ceiling logarithm base 10 on naturals: least `k` with
`n ≤ 10 ^ k`, for `n ≤ fuel`. -/
def natClog10A : ℕ → ℕ → ℕ
  | 0, _ => 0
  | fuel + 1, n => if n ≤ 1 then 0 else natClog10A fuel ((n + 9) / 10) + 1

/-- Least `k` with `n ≤ 10 ^ k`. -/
def natClog10 (n : ℕ) : ℕ := natClog10A n n

/-- `⌊log₁₀ q⌋` for positive rationals, exactly the real value
`np.floor(np.log10 x)` takes on exact input: on `1 ≤ q` the floor logarithm of
`⌊q⌋₊`, on `0 < q < 1` minus the ceiling logarithm of `⌈q⁻¹⌉₊`. -/
def intLog10 (q : ℚ) : ℤ :=
  if 1 ≤ q then (natLog10 ⌊q⌋₊ : ℤ) else -(natClog10 ⌈q⁻¹⌉₊ : ℤ)

/-- `WeatherFlash.order_of_mag`: `0` if `x == 0`, else
`np.floor(np.log10(np.abs(x)))`. -/
def order_of_mag (x : ℚ) : ℤ :=
  if x = 0 then 0 else intLog10 |x|

/-- Rounding to the nearest even integer, the behaviour of `np.round` on
exact ties. -/
def qround (q : ℚ) : ℤ :=
  let f := ⌊q⌋
  if 1/2 < q - f then f + 1
  else if q - f < 1/2 then f
  else if f % 2 = 0 then f else f + 1

/-- The `method` argument of `WeatherFlash.roundn`. -/
inductive RoundMethod where
  | up
  | down
  | nearest
deriving DecidableEq

/-- `WeatherFlash.roundn`: `np.ceil(x / base) * base`,
`np.floor(x / base) * base`, or `np.round(x / base) * base`. -/
def roundn (x : ℚ) (base : ℚ) : RoundMethod → ℚ
  | .up => (⌈x / base⌉ : ℤ) * base
  | .down => (⌊x / base⌋ : ℤ) * base
  | .nearest => (qround (x / base) : ℚ) * base

/-- The order of magnitude `create_hist` derives from the combined maximum:
`oom = self.order_of_mag(var_max) - 1`. -/
def oomOf (vmax : ℚ) : ℤ := order_of_mag vmax - 1

/-- `np.log10` as applied by `create_hist`: its argument there is always the
exact power `10 ** oom`, on which the real logarithm is the integer `oom`,
here recovered by `intLog10`. -/
def log10q (q : ℚ) : ℚ := (intLog10 q : ℚ)

/-- The `scale` of `create_hist`: `scale = 10 ** oom`, replaced by
`np.log10(scale)` when `oom > 0`. -/
def scaleOf (vmax : ℚ) : ℚ :=
  if 0 < oomOf vmax then log10q ((10 : ℚ) ^ oomOf vmax)
  else (10 : ℚ) ^ oomOf vmax

/-- The bin `base` of `create_hist`: `base = scale * 5`. -/
def baseOf (vmax : ℚ) : ℚ := scaleOf vmax * 5

/-- `var_min = self.roundn(var_min, base=base, method='down')`. -/
def vminRound (vmin vmax : ℚ) : ℚ := roundn vmin (baseOf vmax) .down

/-- `var_max = self.roundn(var_max, base=base)` (method defaults to `'up'`). -/
def vmaxRound (vmax : ℚ) : ℚ := roundn vmax (baseOf vmax) .up

/-- The guard `if var_max < 1: var_max = 1` applied after rounding. -/
def vmaxForced (vmax : ℚ) : ℚ :=
  if vmaxRound vmax < 1 then 1 else vmaxRound vmax

/-- `num_bins = (var_max - var_min) / base`, on the rounded and forced
bounds. -/
def numBinsOf (vmin vmax : ℚ) : ℚ :=
  (vmaxForced vmax - vminRound vmin vmax) / baseOf vmax

/-- The bin step `create_hist` selects: `base / 3` when `num_bins <= 7`,
`base / 2` when `num_bins <= 14`, else `base`. -/
def stepOf (vmin vmax : ℚ) : ℚ :=
  if numBinsOf vmin vmax ≤ 7 then baseOf vmax / 3
  else if numBinsOf vmin vmax ≤ 14 then baseOf vmax / 2
  else baseOf vmax

/-- Length of `np.arange(start, stop, step)` for positive `step`:
`⌈(stop - start) / step⌉`, clipped at zero. -/
def arangeLen (start stop step : ℚ) : ℕ := (⌈(stop - start) / step⌉).toNat

/-- `np.arange(start, stop, step)`: the arithmetic sequence
`start, start + step, …` of all terms below `stop` (for positive `step`). -/
def arange (start stop step : ℚ) : List ℚ :=
  (List.range (arangeLen start stop step)).map fun (i : ℕ) => start + (i : ℚ) * step

/-- The bin edges `var_bins` of `create_hist`:
`np.arange(var_min, var_max, step)` on the rounded/forced bounds. -/
def binsOf (vmin vmax : ℚ) : List ℚ :=
  arange (vminRound vmin vmax) (vmaxForced vmax) (stepOf vmin vmax)

/-- Frequencies of `np.histogram(vals, bins=edges)` with monotone `edges`:
bin `i` counts values in `[edges[i], edges[i+1])`, the final bin also takes
the right endpoint. NaN entries never compare true, so only defined values
are passed in. -/
def histCounts (vals : List ℚ) (edges : List ℚ) : List ℕ :=
  (List.range (edges.length - 1)).map fun i =>
    vals.countP fun v =>
      decide (edges.getD i 0 ≤ v ∧
        (if i + 2 = edges.length then v ≤ edges.getD (i + 1) 0
         else v < edges.getD (i + 1) 0))

/-- Minimum of a list, `none` on the empty list: `pandas.DataFrame.min`
over the defined entries. -/
def listMin {α : Type} [LinearOrder α] : List α → Option α
  | [] => none
  | x :: xs => some (xs.foldl min x)

/-- Maximum of a list, `none` on the empty list: `numpy.ndarray.max`
(which raises on an empty array) and `pandas.DataFrame.max`. -/
def listMax {α : Type} [LinearOrder α] : List α → Option α
  | [] => none
  | x :: xs => some (xs.foldl max x)

/-- `np.where(edges <= v)[0][-1]`: the last index of `edges` holding a value
`≤ v`, `none` when there is none (where numpy indexing raises). -/
def lastIdxLE (edges : List ℚ) (v : ℚ) : Option ℕ :=
  listMax ((List.range edges.length).filter fun i => decide (edges.getD i 0 ≤ v))

/-- `str.split()` of Python: split on whitespace runs, no empty pieces.
Worker over the character list, accumulating the current word reversed. -/
def splitWSGo : List Char → List Char → List String
  | [], acc => if acc.isEmpty then [] else [String.mk acc.reverse]
  | c :: cs, acc =>
    if c.isWhitespace then
      if acc.isEmpty then splitWSGo cs []
      else String.mk acc.reverse :: splitWSGo cs []
    else splitWSGo cs (c :: acc)

/-- `var.split()`. -/
def pySplit (s : String) : List String := splitWSGo s.data []

/-- `' '.join(pieces)`. -/
def joinSpace : List String → String
  | [] => ""
  | [s] => s
  | s :: rest => s ++ " " ++ joinSpace rest

/-- `var_field = ' '.join(var.split()[:-1])`: the field name without its
trailing unit token. -/
def varFieldOf (var : String) : String := joinSpace (pySplit var).dropLast

/-- `var_units = var.split()[-1]`: the last whitespace-delimited token. -/
def varUnitsOf (var : String) : String := (pySplit var).getLastD ""

/-- Two-digit zero padding of `m % 100`. -/
def pad2 (m : ℕ) : String :=
  (if m % 100 < 10 then "0" else "") ++ toString (m % 100)

/-- Python `f'{v:.2f}'` on an exact value: round half-even to a hundredth and
print with two decimals. -/
def fmt2 (v : ℚ) : String :=
  let n := qround (v * 100)
  (if n < 0 then "-" else "") ++ toString (n.natAbs / 100) ++ "." ++ pad2 n.natAbs

/-- The highlight title `f'{var_field}: {var_sel:.2f} {var_units}'`. -/
def mkLabel (var : String) (vsel : ℚ) : String :=
  varFieldOf var ++ ": " ++ fmt2 vsel ++ " " ++ varUnitsOf var

/-- The observation slice `df_sel`: dates (already `'%Y-%m-%d'`-formatted),
column names, and per-row values aligned with the columns, `none` for NaN. -/
structure DF where
  idx : List String
  cols : List String
  rows : List (List (Option ℚ))
deriving DecidableEq

/-- Column resolution of `create_hist`: `col_ind = list(df.columns).index(var)`
(raising when absent), paired with `columns[col_ind + 1]` for even positions
and `columns[col_ind - 1]` for odd ones (raising when the even successor does
not exist). -/
def colPair (df : DF) (var : String) : Option (ℕ × ℕ) :=
  let ci := df.cols.indexOf var
  if ci < df.cols.length then
    if ci % 2 = 0 then
      if ci + 1 < df.cols.length then some (ci, ci + 1) else none
    else some (ci, ci - 1)
  else none

/-- The defined (non-NaN) values of column `ci`. -/
def colVals (df : DF) (ci : ℕ) : List ℚ :=
  df.rows.filterMap fun row => row.getD ci none

/-- `df.loc[dt, column ci]`: `none` when the date is absent (where `.loc`
raises `KeyError`), `some none` when present but NaN. -/
def lookupSel (df : DF) (dt : String) (ci : ℕ) : Option (Option ℚ) :=
  ((df.idx.zip df.rows).find? fun p => decide (p.1 = dt)).map fun p =>
    p.2.getD ci none

/-- The `'Climo ' + var` lookup of `create_hist`, `none` when the column is
absent (the caught `KeyError`) or its first entry NaN. -/
def climoOf (df : DF) (var : String) : Option ℚ :=
  if ("Climo " ++ var) ∈ df.cols then
    (df.rows.headD []).getD (df.cols.indexOf ("Climo " ++ var)) none
  else none

/-- The failure modes of `create_hist`, under the specification's taxonomy:
`configurationError` for the field/pair resolution failures of the column
lookup, `insufficientData` for an empty value population, `valueError` for
numpy's reduction on an empty frequency array, `keyError` for the selection
date lookup, `indexError` for an empty `np.where` result. -/
inductive HistErr where
  | configurationError
  | insufficientData
  | valueError
  | keyError
  | indexError
deriving DecidableEq

/-- The quantities of the binning stage of `create_hist` (everything up to
and including `ylim`, lines 147-188 of the source). -/
structure BinCore where
  ci : ℕ
  ri : ℕ
  vmin : ℚ
  vmax : ℚ
  base : ℚ
  vlo : ℚ
  vhi : ℚ
  edges : List ℚ
  freq : List ℕ
  refFreq : List ℕ
  xlim : ℚ × ℚ
  ylim : ℚ × ℚ
deriving DecidableEq

/-- The binning stage of `create_hist`: pair resolution, combined min/max
over both columns, magnitude-scaled base, rounding and forcing, bin edges,
the two histograms over the same edges, and the axis ranges. -/
def histCore (df : DF) (var : String) : Except HistErr BinCore :=
  match colPair df var with
  | none => .error .configurationError
  | some (ci, ri) =>
    match listMin (colVals df ci ++ colVals df ri),
        listMax (colVals df ci ++ colVals df ri) with
    | some vmin, some vmax =>
      match listMax (histCounts (colVals df ci) (binsOf vmin vmax)),
          listMax (histCounts (colVals df ri) (binsOf vmin vmax)) with
      | some fm, some rm =>
        .ok ⟨ci, ri, vmin, vmax, baseOf vmax, vminRound vmin vmax,
             vmaxForced vmax, binsOf vmin vmax,
             histCounts (colVals df ci) (binsOf vmin vmax),
             histCounts (colVals df ri) (binsOf vmin vmax),
             (vminRound vmin vmax - baseOf vmax / 3,
              (if vmaxForced vmax = vminRound vmin vmax then
                vmaxForced vmax + 1/100
               else vmaxForced vmax) + baseOf vmax / 3),
             (0, ((max fm rm : ℕ) : ℚ) + ((max fm rm : ℕ) : ℚ) / 5)⟩
      | _, _ => .error .valueError
    | _, _ => .error .insufficientData

/-- The full result of `create_hist`: the binning-stage data, the highlighted
bin (the index `var_ind` whose two edges `var_edge[var_ind:var_ind + 2]` are
painted red), the plot title, the `'Data N/A'` flag, and the climatology
line. -/
structure HistResult where
  edges : List ℚ
  freq : List ℕ
  refFreq : List ℕ
  xlim : ℚ × ℚ
  ylim : ℚ × ℚ
  highlight : Option ℕ
  label : String
  dataNA : Bool
  vline : Option ℚ
deriving DecidableEq

/-- `WeatherFlash.create_hist(df_sel, var)` with the selection date
`self.datetime.strftime('%Y-%m-%d')` passed explicitly: the binning stage,
then highlight resolution on the selected date's value. -/
def create_hist (df : DF) (dt : String) (var : String) :
    Except HistErr HistResult :=
  (histCore df var).bind fun c =>
    match lookupSel df dt c.ci with
    | none => .error .keyError
    | some none =>
      .ok ⟨c.edges, c.freq, c.refFreq, c.xlim, c.ylim, none, var,
           decide (listMax c.freq = some 0), climoOf df var⟩
    | some (some vsel) =>
      match lastIdxLE c.edges vsel with
      | none => .error .indexError
      | some i0 =>
        .ok ⟨c.edges, c.freq, c.refFreq, c.xlim, c.ylim,
             some (if i0 = c.edges.length - 1 then i0 - 1 else i0),
             mkLabel var vsel, decide (listMax c.freq = some 0), climoOf df var⟩

/-! ### The executable logarithms agree with Mathlib's `Nat.log` / `Nat.clog` /
`Int.log`, hence with the real `log₁₀`. -/

theorem natLog10A_spec : ∀ (fuel n : ℕ), 1 ≤ n → n ≤ fuel →
    10 ^ natLog10A fuel n ≤ n ∧ n < 10 ^ (natLog10A fuel n + 1) := by
  intro fuel
  induction fuel with
  | zero => intro n h1 h2; omega
  | succ f ih =>
    intro n h1 h2
    by_cases hlt : n < 10
    · simp only [natLog10A, if_pos hlt]
      constructor
      · simpa using h1
      · simpa using hlt
    · have h10 : 10 ≤ n := by omega
      have hm1 : 1 ≤ n / 10 := (Nat.one_le_div_iff (by norm_num)).mpr h10
      have hm2 : n / 10 ≤ f := by
        have := Nat.div_lt_self (by omega : 0 < n) (by norm_num : 1 < 10)
        omega
      obtain ⟨ha, hb⟩ := ih (n / 10) hm1 hm2
      have hdm := Nat.div_add_mod n 10
      have hmod := Nat.mod_lt n (by norm_num : 0 < 10)
      simp only [natLog10A, if_neg hlt]
      constructor
      · calc 10 ^ (natLog10A f (n / 10) + 1)
            = 10 ^ natLog10A f (n / 10) * 10 := by rw [pow_succ]
          _ ≤ (n / 10) * 10 := Nat.mul_le_mul_right _ ha
          _ ≤ n := by omega
      · have hb' : n / 10 + 1 ≤ 10 ^ (natLog10A f (n / 10) + 1) := hb
        calc n < (n / 10 + 1) * 10 := by omega
          _ ≤ 10 ^ (natLog10A f (n / 10) + 1) * 10 := Nat.mul_le_mul_right _ hb'
          _ = 10 ^ (natLog10A f (n / 10) + 1 + 1) := (pow_succ _ _).symm

theorem natLog10_eq_log (n : ℕ) : natLog10 n = Nat.log 10 n := by
  rcases Nat.eq_zero_or_pos n with h0 | h1
  · subst h0
    rw [show natLog10 0 = 0 from rfl, Nat.log_zero_right]
  · obtain ⟨ha, hb⟩ := natLog10A_spec n n h1 le_rfl
    exact (Nat.log_eq_of_pow_le_of_lt_pow ha hb).symm

theorem natClog10A_one : ∀ f, natClog10A f 1 = 0 := by
  intro f
  cases f with
  | zero => rfl
  | succ f => simp [natClog10A]

theorem natClog10A_spec : ∀ (fuel n : ℕ), 2 ≤ n → n ≤ fuel →
    1 ≤ natClog10A fuel n ∧ 10 ^ (natClog10A fuel n - 1) < n ∧
      n ≤ 10 ^ natClog10A fuel n := by
  intro fuel
  induction fuel with
  | zero => intro n h1 h2; omega
  | succ f ih =>
    intro n h2 hf
    have hn1 : ¬ n ≤ 1 := by omega
    simp only [natClog10A, if_neg hn1]
    set m := (n + 9) / 10 with hm
    have h10m : 10 * m ≤ n + 9 ∧ n ≤ 10 * m := by omega
    rcases le_or_lt m 1 with hm1 | hm2
    · have hmeq : m = 1 := by omega
      rw [hmeq, natClog10A_one]
      have hn10 : n ≤ 10 := by omega
      refine ⟨by omega, by simpa using h2, by simpa using hn10⟩
    · have hmf : m ≤ f := by omega
      obtain ⟨hc1, hclt, hcle⟩ := ih m (by omega) hmf
      refine ⟨by omega, ?_, ?_⟩
      · have h1 : 10 ^ (natClog10A f m - 1) ≤ m - 1 := by omega
        have h2' : 10 ^ (natClog10A f m - 1) * 10 ≤ (m - 1) * 10 :=
          Nat.mul_le_mul_right _ h1
        calc 10 ^ (natClog10A f m + 1 - 1) = 10 ^ (natClog10A f m - 1) * 10 := by
              rw [← pow_succ]; congr 1; omega
          _ ≤ (m - 1) * 10 := h2'
          _ < n := by omega
      · calc n ≤ 10 * m := h10m.2
          _ ≤ 10 * 10 ^ natClog10A f m := Nat.mul_le_mul_left _ hcle
          _ = 10 ^ (natClog10A f m + 1) := by rw [pow_succ, Nat.mul_comm]

theorem natClog10_eq_clog (n : ℕ) : natClog10 n = Nat.clog 10 n := by
  rcases le_or_lt n 1 with h1 | h2
  · have hz : natClog10 n = 0 := by
      interval_cases n
      · rfl
      · exact natClog10A_one 1
    rw [hz, Nat.clog_of_right_le_one h1]
  · obtain ⟨hc1, hclt, hcle⟩ := natClog10A_spec n n h2 le_rfl
    have hdef : natClog10 n = natClog10A n n := rfl
    refine le_antisymm ?_ ?_
    · have h := (Nat.pow_lt_iff_lt_clog (by norm_num : 1 < 10)).mp hclt
      omega
    · have h := (Nat.le_pow_iff_clog_le (by norm_num : 1 < 10)).mp hcle
      omega

theorem intLog10_eq_log (q : ℚ) : intLog10 q = Int.log 10 q := by
  unfold intLog10 Int.log
  split
  · rw [natLog10_eq_log]
  · rw [natClog10_eq_clog]

theorem intLog10_zpow (z : ℤ) : intLog10 ((10 : ℚ) ^ z) = z := by
  rw [intLog10_eq_log]
  have h : ((10 : ℕ) : ℚ) ^ z = (10 : ℚ) ^ z := by norm_num
  rw [← h, Int.log_zpow (by norm_num : 1 < 10)]

theorem logb10_zpow (z : ℤ) : Real.logb 10 ((10 : ℝ) ^ z) = z := by
  have h10 : Real.log 10 ≠ 0 := ne_of_gt (Real.log_pos (by norm_num))
  unfold Real.logb
  rw [Real.log_zpow]
  field_simp

theorem intLog10_eq_floor_logb (q : ℚ) (hq : 0 < q) :
    intLog10 q = ⌊Real.logb 10 (q : ℝ)⌋ := by
  rw [intLog10_eq_log]
  have hb : (1 : ℕ) < 10 := by norm_num
  have hlow : ((10 : ℕ) : ℚ) ^ Int.log 10 q ≤ q := Int.zpow_log_le_self hb hq
  have hhigh : q < ((10 : ℕ) : ℚ) ^ (Int.log 10 q + 1) :=
    Int.lt_zpow_succ_log_self hb q
  have hqR : (0 : ℝ) < (q : ℝ) := by exact_mod_cast hq
  have hlowR : (10 : ℝ) ^ Int.log 10 q ≤ (q : ℝ) := by
    have h := (Rat.cast_le (K := ℝ)).mpr hlow
    push_cast at h
    exact h
  have hhighR : (q : ℝ) < (10 : ℝ) ^ (Int.log 10 q + 1) := by
    have h := (Rat.cast_lt (K := ℝ)).mpr hhigh
    push_cast at h
    exact h
  symm
  rw [Int.floor_eq_iff]
  constructor
  · calc (Int.log 10 q : ℝ)
        = Real.logb 10 ((10 : ℝ) ^ Int.log 10 q) := (logb10_zpow _).symm
      _ ≤ Real.logb 10 (q : ℝ) :=
        Real.logb_le_logb_of_le (by norm_num) (by positivity) hlowR
  · have h := Real.logb_lt_logb (b := 10) (by norm_num) hqR hhighR
    rw [logb10_zpow] at h
    push_cast at h ⊢
    linarith

/-! ### Facts about `listMin` / `listMax`, `arange`, `histCounts`, and the
positivity of the derived `base` and `step`. -/

theorem foldl_max_facts {α : Type} [LinearOrder α] :
    ∀ (xs : List α) (a : α),
      a ≤ xs.foldl max a ∧ (∀ x ∈ xs, x ≤ xs.foldl max a) ∧
        xs.foldl max a ∈ a :: xs := by
  intro xs
  induction xs with
  | nil => intro a; simp
  | cons y ys ih =>
    intro a
    obtain ⟨h1, h2, h3⟩ := ih (max a y)
    have hf : (y :: ys).foldl max a = ys.foldl max (max a y) := rfl
    rw [hf]
    refine ⟨le_trans (le_max_left a y) h1, ?_, ?_⟩
    · intro x hx
      rcases List.mem_cons.mp hx with hx | hx
      · subst hx
        exact le_trans (le_max_right a x) h1
      · exact h2 x hx
    · rcases List.mem_cons.mp h3 with h3 | h3
      · rcases max_choice a y with hc | hc <;> rw [h3, hc]
        · exact List.mem_cons_self a _
        · exact List.mem_cons_of_mem a (List.mem_cons_self y ys)
      · exact List.mem_cons_of_mem a (List.mem_cons_of_mem y h3)

theorem foldl_min_facts {α : Type} [LinearOrder α] :
    ∀ (xs : List α) (a : α),
      xs.foldl min a ≤ a ∧ (∀ x ∈ xs, xs.foldl min a ≤ x) ∧
        xs.foldl min a ∈ a :: xs := by
  intro xs
  induction xs with
  | nil => intro a; simp
  | cons y ys ih =>
    intro a
    obtain ⟨h1, h2, h3⟩ := ih (min a y)
    have hf : (y :: ys).foldl min a = ys.foldl min (min a y) := rfl
    rw [hf]
    refine ⟨le_trans h1 (min_le_left a y), ?_, ?_⟩
    · intro x hx
      rcases List.mem_cons.mp hx with hx | hx
      · subst hx
        exact le_trans h1 (min_le_right a x)
      · exact h2 x hx
    · rcases List.mem_cons.mp h3 with h3 | h3
      · rcases min_choice a y with hc | hc <;> rw [h3, hc]
        · exact List.mem_cons_self a _
        · exact List.mem_cons_of_mem a (List.mem_cons_self y ys)
      · exact List.mem_cons_of_mem a (List.mem_cons_of_mem y h3)

theorem listMax_isSome {α : Type} [LinearOrder α] {l : List α} (h : l ≠ []) :
    ∃ m, listMax l = some m := by
  cases l with
  | nil => exact absurd rfl h
  | cons x xs => exact ⟨xs.foldl max x, rfl⟩

theorem listMax_mem {α : Type} [LinearOrder α] {l : List α} {m : α}
    (h : listMax l = some m) : m ∈ l := by
  cases l with
  | nil => simp [listMax] at h
  | cons x xs =>
    have hm : m = xs.foldl max x := by
      simpa [listMax] using h.symm
    rw [hm]
    exact (foldl_max_facts xs x).2.2

theorem le_listMax {α : Type} [LinearOrder α] {l : List α} {m x : α}
    (h : listMax l = some m) (hx : x ∈ l) : x ≤ m := by
  cases l with
  | nil => simp at hx
  | cons y ys =>
    have hm : m = ys.foldl max y := by
      simpa [listMax] using h.symm
    rw [hm]
    rcases List.mem_cons.mp hx with hx2 | hx2
    · subst hx2
      exact (foldl_max_facts ys x).1
    · exact (foldl_max_facts ys y).2.1 x hx2

theorem listMin_isSome {α : Type} [LinearOrder α] {l : List α} (h : l ≠ []) :
    ∃ m, listMin l = some m := by
  cases l with
  | nil => exact absurd rfl h
  | cons x xs => exact ⟨xs.foldl min x, rfl⟩

theorem listMin_mem {α : Type} [LinearOrder α] {l : List α} {m : α}
    (h : listMin l = some m) : m ∈ l := by
  cases l with
  | nil => simp [listMin] at h
  | cons x xs =>
    have hm : m = xs.foldl min x := by
      simpa [listMin] using h.symm
    rw [hm]
    exact (foldl_min_facts xs x).2.2

theorem listMin_le {α : Type} [LinearOrder α] {l : List α} {m x : α}
    (h : listMin l = some m) (hx : x ∈ l) : m ≤ x := by
  cases l with
  | nil => simp at hx
  | cons y ys =>
    have hm : m = ys.foldl min y := by
      simpa [listMin] using h.symm
    rw [hm]
    rcases List.mem_cons.mp hx with hx2 | hx2
    · subst hx2
      exact (foldl_min_facts ys x).1
    · exact (foldl_min_facts ys y).2.1 x hx2

theorem listMax_ne_nil {α : Type} [LinearOrder α] {l : List α} {m : α}
    (h : listMax l = some m) : l ≠ [] := by
  intro he
  subst he
  simp [listMax] at h

theorem arange_length (s t st : ℚ) :
    (arange s t st).length = arangeLen s t st := by
  rw [arange, List.length_map, List.length_range]

theorem arange_getD (s t st : ℚ) (i : ℕ) (h : i < arangeLen s t st) :
    (arange s t st).getD i 0 = s + (i : ℚ) * st := by
  rw [arange, List.getD_eq_getElem?_getD, List.getElem?_map, List.getElem?_range h]
  rfl

theorem arange_mem_lt {s t st : ℚ} (hst : 0 < st) {x : ℚ}
    (hx : x ∈ arange s t st) : x < t := by
  rw [arange, List.mem_map] at hx
  obtain ⟨i, hi, rfl⟩ := hx
  rw [List.mem_range] at hi
  have hii : (i : ℤ) < ⌈(t - s) / st⌉ := Int.lt_toNat.mp hi
  have hic : (i : ℚ) < (t - s) / st := by
    have h1 : ((i : ℤ) : ℚ) ≤ (⌈(t - s) / st⌉ : ℚ) - 1 := by
      have h0 : (i : ℤ) ≤ ⌈(t - s) / st⌉ - 1 := by omega
      exact_mod_cast h0
    have h2 : (⌈(t - s) / st⌉ : ℚ) < (t - s) / st + 1 := Int.ceil_lt_add_one _
    push_cast at h1
    linarith
  have := (lt_div_iff₀ hst).mp hic
  linarith

theorem arange_pairwise {s t st : ℚ} (hst : 0 < st) :
    List.Pairwise (· < ·) (arange s t st) := by
  rw [arange]
  refine List.Pairwise.map _ ?_ (List.pairwise_lt_range _)
  intro a b hab
  have ha : (a : ℚ) < (b : ℚ) := by exact_mod_cast hab
  have := mul_lt_mul_of_pos_right ha hst
  linarith

theorem arange_ne_nil {s t st : ℚ} (hst : 0 < st) (h : s < t) :
    arange s t st ≠ [] := by
  have hpos : 0 < (t - s) / st := div_pos (by linarith) hst
  have hc : 1 ≤ ⌈(t - s) / st⌉ := Int.ceil_pos.mpr hpos
  have hl : 0 < (arange s t st).length := by
    rw [arange_length]
    unfold arangeLen
    omega
  exact List.ne_nil_of_length_pos hl

theorem arange_getLastD_bound {s t st : ℚ} (hst : 0 < st) (h : s < t) :
    t ≤ (arange s t st).getLastD 0 + st := by
  have hpos : 0 < (t - s) / st := div_pos (by linarith) hst
  have hc : 1 ≤ ⌈(t - s) / st⌉ := Int.ceil_pos.mpr hpos
  have hn1 : 1 ≤ arangeLen s t st := by unfold arangeLen; omega
  obtain ⟨m, hm⟩ : ∃ m, arangeLen s t st = m + 1 := ⟨arangeLen s t st - 1, by omega⟩
  have hlast : (arange s t st).getLastD 0 = s + (m : ℚ) * st := by
    rw [arange, hm, List.range_succ, List.map_append]
    simp
  rw [hlast]
  have hnv : ((t - s) / st) ≤ ((m : ℚ) + 1) := by
    have h1 : ((t - s) / st) ≤ (⌈(t - s) / st⌉ : ℚ) := Int.le_ceil _
    have h2 : ((⌈(t - s) / st⌉ : ℤ) : ℚ) = ((m : ℚ) + 1) := by
      have h3 : (⌈(t - s) / st⌉ : ℤ).toNat = m + 1 := hm
      have h4 : ((⌈(t - s) / st⌉ : ℤ).toNat : ℤ) = ⌈(t - s) / st⌉ :=
        Int.toNat_of_nonneg (by omega)
      rw [h3] at h4
      exact_mod_cast h4.symm
    rw [h2] at h1
    exact h1
  have hmul : t - s ≤ ((m : ℚ) + 1) * st := by
    have := mul_le_mul_of_nonneg_right hnv (le_of_lt hst)
    rw [div_mul_cancel₀ _ (ne_of_gt hst)] at this
    exact this
  nlinarith [hmul]

theorem scaleOf_pos (v : ℚ) : 0 < scaleOf v := by
  unfold scaleOf
  split
  · unfold log10q
    rw [intLog10_zpow]
    rename_i h
    exact_mod_cast h
  · exact zpow_pos (by norm_num) _

theorem baseOf_pos (v : ℚ) : 0 < baseOf v := by
  unfold baseOf
  have := scaleOf_pos v
  linarith

theorem stepOf_pos (a b : ℚ) : 0 < stepOf a b := by
  unfold stepOf
  have h := baseOf_pos b
  split
  · linarith
  · split
    · linarith
    · exact h

theorem histCounts_length (vals edges : List ℚ) :
    (histCounts vals edges).length = edges.length - 1 := by
  rw [histCounts, List.length_map, List.length_range]

theorem roundn_down_le (x b : ℚ) (hb : 0 < b) : roundn x b .down ≤ x := by
  unfold roundn
  have h1 : (⌊x / b⌋ : ℚ) ≤ x / b := Int.floor_le _
  have := mul_le_mul_of_nonneg_right h1 (le_of_lt hb)
  rw [div_mul_cancel₀ _ (ne_of_gt hb)] at this
  exact this

theorem lt_roundn_down_add (x b : ℚ) (hb : 0 < b) :
    x < roundn x b .down + b := by
  unfold roundn
  have h1 : x / b < (⌊x / b⌋ : ℚ) + 1 := Int.lt_floor_add_one _
  have h2 := mul_lt_mul_of_pos_right h1 hb
  rw [div_mul_cancel₀ _ (ne_of_gt hb)] at h2
  linarith [h2]

theorem le_roundn_up (x b : ℚ) (hb : 0 < b) : x ≤ roundn x b .up := by
  unfold roundn
  have h1 : x / b ≤ (⌈x / b⌉ : ℚ) := Int.le_ceil _
  have := mul_le_mul_of_nonneg_right h1 (le_of_lt hb)
  rw [div_mul_cancel₀ _ (ne_of_gt hb)] at this
  exact this

theorem roundn_up_lt_add (x b : ℚ) (hb : 0 < b) : roundn x b .up < x + b := by
  unfold roundn
  have h1 : (⌈x / b⌉ : ℚ) < x / b + 1 := Int.ceil_lt_add_one _
  have h2 := mul_lt_mul_of_pos_right h1 hb
  rw [add_mul, div_mul_cancel₀ _ (ne_of_gt hb)] at h2
  linarith [h2]

/-! ### Inversion of the `histCore` / `create_hist` pipeline. -/

theorem histCore_ok {df : DF} {var : String} {c : BinCore}
    (h : histCore df var = .ok c) :
    colPair df var = some (c.ci, c.ri) ∧
    listMin (colVals df c.ci ++ colVals df c.ri) = some c.vmin ∧
    listMax (colVals df c.ci ++ colVals df c.ri) = some c.vmax ∧
    c.base = baseOf c.vmax ∧
    c.vlo = vminRound c.vmin c.vmax ∧
    c.vhi = vmaxForced c.vmax ∧
    c.edges = binsOf c.vmin c.vmax ∧
    c.freq = histCounts (colVals df c.ci) c.edges ∧
    c.refFreq = histCounts (colVals df c.ri) c.edges ∧
    ∃ fm rm, listMax c.freq = some fm ∧ listMax c.refFreq = some rm ∧
      c.ylim = (0, ((max fm rm : ℕ) : ℚ) + ((max fm rm : ℕ) : ℚ) / 5) := by
  unfold histCore at h
  split at h
  · simp at h
  · rename_i p ci ri hcp
    split at h
    · rename_i vmin vmax hmin hmax
      split at h
      · rename_i fm rm hfm hrm
        injection h with h
        subst h
        exact ⟨hcp, hmin, hmax, rfl, rfl, rfl, rfl, rfl, rfl, fm, rm, hfm, hrm, rfl⟩
      · simp at h
    · simp at h

theorem create_hist_ok_core {df : DF} {dt var : String} {r : HistResult}
    (h : create_hist df dt var = .ok r) :
    ∃ c, histCore df var = .ok c ∧ r.edges = c.edges ∧ r.freq = c.freq ∧
      r.refFreq = c.refFreq ∧ r.xlim = c.xlim ∧ r.ylim = c.ylim := by
  unfold create_hist at h
  cases hc : histCore df var with
  | error e => rw [hc] at h; simp [Except.bind] at h
  | ok c =>
    rw [hc] at h
    simp only [Except.bind] at h
    refine ⟨c, rfl, ?_⟩
    split at h
    · simp at h
    · injection h with h
      subst h
      exact ⟨rfl, rfl, rfl, rfl, rfl⟩
    · split at h
      · simp at h
      · injection h with h
        subst h
        exact ⟨rfl, rfl, rfl, rfl, rfl⟩

theorem create_hist_highlight {df : DF} {dt var : String} {r : HistResult}
    (h : create_hist df dt var = .ok r) {i : ℕ} (hh : r.highlight = some i) :
    ∃ c vsel i0, histCore df var = .ok c ∧
      lookupSel df dt c.ci = some (some vsel) ∧
      lastIdxLE c.edges vsel = some i0 ∧
      i = (if i0 = c.edges.length - 1 then i0 - 1 else i0) ∧
      r.label = mkLabel var vsel ∧ r.edges = c.edges ∧ r.freq = c.freq := by
  unfold create_hist at h
  cases hc : histCore df var with
  | error e => rw [hc] at h; simp [Except.bind] at h
  | ok c =>
    rw [hc] at h
    simp only [Except.bind] at h
    split at h
    · simp at h
    · injection h with h
      subst h
      simp at hh
    · rename_i o vsel hsel
      split at h
      · simp at h
      · rename_i i0 hlast
        injection h with h
        subst h
        simp only [HistResult.highlight] at hh
        injection hh with hh
        exact ⟨c, vsel, i0, rfl, hsel, hlast, hh.symm, rfl, rfl, rfl⟩

theorem create_hist_nan_sel {df : DF} {dt var : String} {c : BinCore}
    (hc : histCore df var = .ok c)
    (hsel : lookupSel df dt c.ci = some none) :
    ∃ r, create_hist df dt var = .ok r ∧ r.highlight = none ∧
      r.label = var := by
  unfold create_hist
  rw [hc]
  simp only [Except.bind]
  rw [hsel]
  exact ⟨_, rfl, rfl, rfl⟩

theorem create_hist_key_miss {df : DF} {dt var : String} {c : BinCore}
    (hc : histCore df var = .ok c)
    (hsel : lookupSel df dt c.ci = none) :
    create_hist df dt var = .error .keyError := by
  unfold create_hist
  rw [hc]
  simp only [Except.bind]
  rw [hsel]

/-! ### Shared concrete frames for the witnesses and counterexamples. -/

/-- One day, both paired columns reading `50`. -/
def df50 : DF :=
  ⟨["2020-01-01"], ["Min Temp F", "Max Temp F"], [[some 50, some 50]]⟩

/-- Two days with values `49` and `50` in both paired columns. -/
def df49 : DF :=
  ⟨["2020-01-01", "2020-01-02"], ["Min Temp F", "Max Temp F"],
   [[some 49, some 49], [some 50, some 50]]⟩

/-- Four days, field values `[70, 72, 75, 71]`, the paired column equal to
the field column. -/
def dfPair : DF :=
  ⟨["2020-01-01", "2020-01-02", "2020-01-03", "2020-01-04"],
   ["Min Temp F", "Max Temp F"],
   [[some 70, some 70], [some 72, some 72], [some 75, some 75],
    [some 71, some 71]]⟩

/-- Four days, field values `[70, 72, 75, 71]`, the paired column constantly
`-5`. -/
def dfNeg : DF :=
  ⟨["2020-01-01", "2020-01-02", "2020-01-03", "2020-01-04"],
   ["Min Temp F", "Max Temp F"],
   [[some 70, some (-5)], [some 72, some (-5)], [some 75, some (-5)],
    [some 71, some (-5)]]⟩

/-- One day, both paired columns reading `0` (all-zero precipitation). -/
def dfZero : DF :=
  ⟨["2020-01-01"], ["Precip In", "Snow In"], [[some 0, some 0]]⟩

/-- Two days; the field is NaN on the second day. -/
def dfNan : DF :=
  ⟨["2020-01-01", "2020-01-02"], ["Min Temp F", "Max Temp F"],
   [[some 70, some 75], [none, some 71]]⟩

/-! ### Further pipeline helpers. -/

theorem colPair_none_of_absent {df : DF} {var : String} (h : var ∉ df.cols) :
    colPair df var = none := by
  unfold colPair
  rw [List.indexOf_eq_length.mpr h]
  simp

theorem histCore_absent {df : DF} {var : String} (h : var ∉ df.cols) :
    histCore df var = .error .configurationError := by
  unfold histCore
  rw [colPair_none_of_absent h]

theorem histCore_empty {df : DF} {var : String} {ci ri : ℕ}
    (hcp : colPair df var = some (ci, ri)) (hrows : df.rows = []) :
    histCore df var = .error .insufficientData := by
  have h1 : colVals df ci = [] := by unfold colVals; rw [hrows]; rfl
  have h2 : colVals df ri = [] := by unfold colVals; rw [hrows]; rfl
  unfold histCore
  rw [hcp]
  dsimp only
  rw [h1, h2]
  rfl

theorem create_hist_of_histCore_error {df : DF} {dt var : String}
    {e : HistErr} (h : histCore df var = .error e) :
    create_hist df dt var = .error e := by
  unfold create_hist
  rw [h]
  rfl

theorem lookupSel_none_of_absent {df : DF} {dt : String} {ci : ℕ}
    (h : dt ∉ df.idx) : lookupSel df dt ci = none := by
  unfold lookupSel
  rw [List.find?_eq_none.mpr]
  · rfl
  · intro p hp
    rcases p with ⟨d, row⟩
    have hd : d ∈ df.idx := (List.of_mem_zip hp).1
    simp only [decide_eq_true_eq]
    intro heq
    exact h (heq ▸ hd)

theorem lastIdxLE_lt {edges : List ℚ} {v : ℚ} {i0 : ℕ}
    (h : lastIdxLE edges v = some i0) : i0 < edges.length := by
  unfold lastIdxLE at h
  have hm := listMax_mem h
  rw [List.mem_filter, List.mem_range] at hm
  exact hm.1

/-- Empty frame: the paired temperature columns exist but there are no
rows. -/
def dfEmpty : DF := ⟨[], ["Min Temp F", "Max Temp F"], []⟩

/-! ### The claims. -/

/-- Claim C2, counterexample: the claim asserts `oom = 0` when
`var_max == 0`, but `create_hist` computes `oom = order_of_mag(0) - 1 = -1`
there. -/
theorem claim_C2_counterexample : oomOf 0 = -1 ∧ oomOf 0 ≠ 0 := by decide

/-- Claim C2 (amended): the binning magnitude satisfies
`oom = ⌊log₁₀ |var_max|⌋ - 1` for nonzero `var_max` and `oom = -1` (not `0`)
when `var_max = 0`; `scale = 10 ^ oom` is replaced by `log₁₀ scale = oom`
when `oom > 0`, and `base = scale * 5`. -/
theorem claim_C2 : ∀ v : ℚ,
    (v ≠ 0 → oomOf v = ⌊Real.logb 10 |(v : ℝ)|⌋ - 1) ∧
    oomOf 0 = -1 ∧
    scaleOf v = (if 0 < oomOf v then ((oomOf v : ℤ) : ℚ)
                 else (10 : ℚ) ^ oomOf v) ∧
    baseOf v = scaleOf v * 5 := by
  intro v
  refine ⟨?_, by decide, ?_, rfl⟩
  · intro hv
    unfold oomOf order_of_mag
    rw [if_neg hv]
    have habs : (0 : ℚ) < |v| := abs_pos.mpr hv
    rw [intLog10_eq_floor_logb _ habs, Rat.cast_abs]
  · unfold scaleOf
    split
    · unfold log10q
      rw [intLog10_zpow]
    · rfl

/-- Witness for claim C2 at `var_max = 72`. -/
theorem claim_C2_witness :
    (72 : ℚ) ≠ 0 ∧ oomOf 72 = ⌊Real.logb 10 |((72 : ℚ) : ℝ)|⌋ - 1 := by
  have h : (72 : ℚ) ≠ 0 := by norm_num
  exact ⟨h, (claim_C2 72).1 h⟩

/-- Claim C3: a field absent from the columns makes `create_hist` fail with
the configuration error (the `list.index` `ValueError` of line 151), and an
empty slice makes it fail with the insufficient-data error (the NaN
min/max). -/
theorem claim_C3 :
    (∀ (df : DF) (dt var : String), var ∉ df.cols →
      create_hist df dt var = .error .configurationError) ∧
    (∀ (df : DF) (dt var : String) (ci ri : ℕ),
      colPair df var = some (ci, ri) → df.rows = [] →
      create_hist df dt var = .error .insufficientData) := by
  constructor
  · intro df dt var h
    exact create_hist_of_histCore_error (histCore_absent h)
  · intro df dt var ci ri hcp hrows
    exact create_hist_of_histCore_error (histCore_empty hcp hrows)

/-- Witness for claim C3: an unknown field name, and an empty frame. -/
theorem claim_C3_witness :
    ("Humidity Pct" ∉ dfPair.cols ∧
      create_hist dfPair "2020-01-01" "Humidity Pct" =
        .error .configurationError) ∧
    (colPair dfEmpty "Min Temp F" = some (0, 1) ∧ dfEmpty.rows = [] ∧
      create_hist dfEmpty "2020-01-01" "Min Temp F" =
        .error .insufficientData) := by
  refine ⟨⟨by decide, claim_C3.1 _ _ _ (by decide)⟩,
    ⟨by decide, rfl, claim_C3.2 _ _ _ 0 1 (by decide) rfl⟩⟩

/-- Claim C8: a NaN value for the field on the selection date yields a
result with no highlighted bin whose label is the raw field name. -/
theorem claim_C8 : ∀ (df : DF) (dt var : String) (c : BinCore),
    histCore df var = .ok c → lookupSel df dt c.ci = some none →
    ∃ r, create_hist df dt var = .ok r ∧ r.highlight = none ∧
      r.label = var := by
  intro df dt var c hc hsel
  exact create_hist_nan_sel hc hsel

/-- Witness for claim C8 on a frame whose field is NaN on the selected
day. -/
theorem claim_C8_witness :
    (create_hist dfNan "2020-01-02" "Min Temp F").toOption.map
      (fun r => (r.highlight, r.label)) = some (none, "Min Temp F") := by
  rcases hc : histCore dfNan "Min Temp F" with e | c
  · have hok : (histCore dfNan "Min Temp F").toOption ≠ none := by decide
    rw [hc] at hok
    exact absurd rfl hok
  · have hci : c.ci = 0 := by
      have h : (histCore dfNan "Min Temp F").toOption.map
          (fun c => c.ci) = some 0 := by decide
      rw [hc] at h
      simpa [Except.toOption] using h
    obtain ⟨r, hr, h1, h2⟩ :=
      claim_C8 dfNan "2020-01-02" "Min Temp F" c hc (by rw [hci]; decide)
    rw [hr]
    simp [Except.toOption, h1, h2]

/-- Claim C10: a selection date absent from the slice makes `create_hist`
fail with the lookup (`KeyError`) failure instead of returning an
unhighlighted result. -/
theorem claim_C10 : ∀ (df : DF) (dt var : String) (c : BinCore),
    histCore df var = .ok c → dt ∉ df.idx →
    create_hist df dt var = .error .keyError := by
  intro df dt var c hc hdt
  exact create_hist_key_miss hc (lookupSel_none_of_absent hdt)

/-- Witness for claim C10: a date outside the frame. -/
theorem claim_C10_witness :
    "1999-01-01" ∉ dfPair.idx ∧
    create_hist dfPair "1999-01-01" "Min Temp F" = .error .keyError := by
  refine ⟨by decide, ?_⟩
  rcases hc : histCore dfPair "Min Temp F" with e | c
  · have hok : (histCore dfPair "Min Temp F").toOption ≠ none := by decide
    rw [hc] at hok
    exact absurd rfl hok
  · exact claim_C10 _ _ _ c hc (by decide)

/-- Decidable equality of pipeline outcomes, for the concrete runs. -/
instance {ε α : Type} [DecidableEq ε] [DecidableEq α] :
    DecidableEq (Except ε α) := fun a b =>
  match a, b with
  | .error e, .error f =>
    if h : e = f then .isTrue (by rw [h]) else .isFalse (by simp [h])
  | .error _, .ok _ => .isFalse (by simp)
  | .ok _, .error _ => .isFalse (by simp)
  | .ok x, .ok y =>
    if h : x = y then .isTrue (by rw [h]) else .isFalse (by simp [h])

/-- Claim C1, counterexample: a one-day series with both paired fields
defined and equal to `50` (a multiple of the derived base at or above `1`)
produces an empty bin list, so `create_hist` raises (numpy's reduction of
the empty frequency array) instead of returning ≥ 2 strictly increasing
edges. -/
theorem claim_C1_counterexample :
    df50.rows ≠ [] ∧ colVals df50 0 = [50] ∧ colVals df50 1 = [50] ∧
    create_hist df50 "2020-01-01" "Min Temp F" = .error .valueError ∧
    binsOf 50 50 = [] := by decide

/-- Claim C1 (amended): whenever `create_hist` does return a result, its
bin-edge sequence has length at least 2 and is strictly increasing; on the
degenerate inputs where the rounded bounds coincide it fails with a
`ValueError` instead of returning. -/
theorem claim_C1 : ∀ (df : DF) (dt var : String) (r : HistResult),
    create_hist df dt var = .ok r →
    2 ≤ r.edges.length ∧ List.Pairwise (· < ·) r.edges := by
  intro df dt var r h
  obtain ⟨c, hc, hedges, hfreq, _, _, _⟩ := create_hist_ok_core h
  obtain ⟨_, _, _, _, _, _, hbins, hfreqdef, _, fm, rm, hfm, _, _⟩ :=
    histCore_ok hc
  have hne : c.freq ≠ [] := listMax_ne_nil hfm
  have hlen : c.freq.length = c.edges.length - 1 := by
    rw [hfreqdef, histCounts_length]
  have hpos : 0 < c.freq.length := List.length_pos.mpr hne
  constructor
  · rw [hedges]
    omega
  · rw [hedges, hbins]
    exact arange_pairwise (stepOf_pos _ _)

/-- Witness for claim C1 on a well-behaved four-day series. -/
theorem claim_C1_witness :
    (create_hist dfPair "2020-01-02" "Min Temp F").toOption.map
      (fun r => decide (2 ≤ r.edges.length ∧ List.Pairwise (· < ·) r.edges))
      = some true := by
  rcases hr : create_hist dfPair "2020-01-02" "Min Temp F" with e | r
  · have hok : (create_hist dfPair "2020-01-02" "Min Temp F").toOption ≠
        none := by decide
    rw [hr] at hok
    exact absurd rfl hok
  · obtain ⟨h1, h2⟩ := claim_C1 _ _ _ _ hr
    simp only [Except.toOption, Option.map_some', Option.some.injEq,
      decide_eq_true_eq]
    exact ⟨h1, h2⟩

/-- Claim C4, counterexample: on the series `[49, 50]` every value misses
the (right-open) bins, all frequencies are zero, and the returned
`ylim = (0, 0)` — so `ylim[1] > ylim[0]` does not hold in all cases. -/
theorem claim_C4_counterexample :
    colVals df49 0 = [49, 50] ∧
    (create_hist df49 "2020-01-01" "Min Temp F").toOption.map
      (fun r => (r.ylim, decide (r.ylim.1 < r.ylim.2))) =
      some ((0, 0), false) := by decide

/-- Claim C4 (amended): the returned frequency range is
`ylim = (0, 1.2 × max(max(var_freq), max(var_ref_freq)))`, and
`ylim[1] > ylim[0]` holds whenever some bin of either histogram is
nonempty; when every frequency is zero, `ylim = (0, 0)`. -/
theorem claim_C4 : ∀ (df : DF) (dt var : String) (r : HistResult)
    (fm rm : ℕ), create_hist df dt var = .ok r →
    listMax r.freq = some fm → listMax r.refFreq = some rm →
    r.ylim = (0, ((max fm rm : ℕ) : ℚ) * (6 / 5)) ∧
    (0 < max fm rm → r.ylim.1 < r.ylim.2) := by
  intro df dt var r fm rm h hfm hrm
  obtain ⟨c, hc, hedges, hfreq, hreffreq, hxlim, hylim⟩ :=
    create_hist_ok_core h
  obtain ⟨_, _, _, _, _, _, _, _, _, fm', rm', hfm', hrm', hyl⟩ :=
    histCore_ok hc
  rw [hfreq] at hfm
  rw [hreffreq] at hrm
  have hfe : fm' = fm := Option.some.inj (hfm'.symm.trans hfm)
  have hre : rm' = rm := Option.some.inj (hrm'.symm.trans hrm)
  rw [hfe, hre] at hyl
  have hring : ((max fm rm : ℕ) : ℚ) + ((max fm rm : ℕ) : ℚ) / 5 =
      ((max fm rm : ℕ) : ℚ) * (6 / 5) := by ring
  constructor
  · rw [hylim, hyl, hring]
  · intro hM
    rw [hylim, hyl]
    have hMq : (0 : ℚ) < ((max fm rm : ℕ) : ℚ) := by exact_mod_cast hM
    show (0 : ℚ) < _ + _ / 5
    linarith

/-- Witness for claim C4 on the four-day series: maximal frequency 2 on
both histograms, `ylim = (0, 2.4)`. -/
theorem claim_C4_witness :
    (create_hist dfPair "2020-01-02" "Min Temp F").toOption.map
      (fun r => (r.ylim, decide (r.ylim.1 < r.ylim.2))) =
      some ((0, 12/5), true) := by
  rcases hr : create_hist dfPair "2020-01-02" "Min Temp F" with e | r
  · have hok : (create_hist dfPair "2020-01-02" "Min Temp F").toOption ≠
        none := by decide
    rw [hr] at hok
    exact absurd rfl hok
  · have hm : (create_hist dfPair "2020-01-02" "Min Temp F").toOption.map
        (fun r => (listMax r.freq, listMax r.refFreq)) =
        some (some 2, some 2) := by decide
    rw [hr] at hm
    simp only [Except.toOption, Option.map_some', Option.some.injEq,
      Prod.mk.injEq] at hm
    obtain ⟨hy, hlt⟩ := claim_C4 _ _ _ r 2 2 hr hm.1 hm.2
    simp only [Except.toOption, Option.map_some', Option.some.injEq,
      Prod.mk.injEq]
    constructor
    · rw [hy]
      norm_num
    · rw [decide_eq_true_eq]
      exact hlt (by norm_num)

/-- Claim C9: whenever a bin is highlighted, its index leaves both slice
edges `var_edge[var_ind]`, `var_edge[var_ind + 1]` in range. -/
theorem claim_C9 : ∀ (df : DF) (dt var : String) (r : HistResult) (i : ℕ),
    create_hist df dt var = .ok r → r.highlight = some i →
    i + 2 ≤ r.edges.length := by
  intro df dt var r i h hh
  obtain ⟨c, vsel, i0, hc, hsel, hlast, hi, hlabel, hedges, hfreq⟩ :=
    create_hist_highlight h hh
  obtain ⟨_, _, _, _, _, _, _, hfreqdef, _, fm, rm, hfm, _, _⟩ :=
    histCore_ok hc
  have hne : c.freq ≠ [] := listMax_ne_nil hfm
  have hlen : c.freq.length = c.edges.length - 1 := by
    rw [hfreqdef, histCounts_length]
  have hpos : 0 < c.freq.length := List.length_pos.mpr hne
  have hi0 : i0 < c.edges.length := lastIdxLE_lt hlast
  rw [hedges]
  by_cases hcase : i0 = c.edges.length - 1
  · rw [hi, if_pos hcase]
    omega
  · rw [hi, if_neg hcase]
    omega

/-- Witness for claim C9: the highlighted bin index 1 against 3 edges. -/
theorem claim_C9_witness :
    (create_hist dfPair "2020-01-02" "Min Temp F").toOption.map
      (fun r => (r.highlight,
        decide (r.highlight.getD 0 + 2 ≤ r.edges.length))) =
      some (some 1, true) := by
  rcases hr : create_hist dfPair "2020-01-02" "Min Temp F" with e | r
  · have hok : (create_hist dfPair "2020-01-02" "Min Temp F").toOption ≠
        none := by decide
    rw [hr] at hok
    exact absurd rfl hok
  · have hm : (create_hist dfPair "2020-01-02" "Min Temp F").toOption.map
        (fun r => r.highlight) = some (some 1) := by decide
    rw [hr] at hm
    simp only [Except.toOption, Option.map_some', Option.some.injEq] at hm
    have hle := claim_C9 _ _ _ r 1 hr hm
    simp only [Except.toOption, Option.map_some', Option.some.injEq,
      Prod.mk.injEq]
    refine ⟨hm, ?_⟩
    rw [decide_eq_true_eq, hm]
    exact hle

/-- Claim C5: the bin step is `base/3`, `base/2` or `base` according to the
span `num_bins = (var_max - var_min)/base` of the rounded bounds (≤ 7,
≤ 14, else), and the edges are exactly the maximal arithmetic sequence from
the rounded `var_min` at that step whose terms stay below the
rounded/forced `var_max`; `create_hist`'s edges are these bins. -/
theorem claim_C5 : (∀ vmin vmax : ℚ,
    (stepOf vmin vmax = if numBinsOf vmin vmax ≤ 7 then baseOf vmax / 3
      else if numBinsOf vmin vmax ≤ 14 then baseOf vmax / 2
      else baseOf vmax) ∧
    (∀ i, i < (binsOf vmin vmax).length →
      (binsOf vmin vmax).getD i 0 =
        vminRound vmin vmax + (i : ℚ) * stepOf vmin vmax) ∧
    (∀ x ∈ binsOf vmin vmax, x < vmaxForced vmax) ∧
    (vminRound vmin vmax < vmaxForced vmax →
      binsOf vmin vmax ≠ [] ∧
      vmaxForced vmax ≤ (binsOf vmin vmax).getLastD 0 + stepOf vmin vmax)) ∧
    (∀ (df : DF) (var : String) (c : BinCore), histCore df var = .ok c →
      c.edges = binsOf c.vmin c.vmax) := by
  constructor
  · intro vmin vmax
    have hlen := arange_length (vminRound vmin vmax) (vmaxForced vmax)
      (stepOf vmin vmax)
    refine ⟨rfl, ?_, ?_, ?_⟩
    · intro i hi
      have hi' : i < arangeLen (vminRound vmin vmax) (vmaxForced vmax)
          (stepOf vmin vmax) := by
        rw [← hlen]
        exact hi
      exact arange_getD _ _ _ i hi'
    · intro x hx
      exact arange_mem_lt (stepOf_pos _ _) hx
    · intro hlt
      exact ⟨arange_ne_nil (stepOf_pos _ _) hlt,
        arange_getLastD_bound (stepOf_pos _ _) hlt⟩
  · intro df var c hc
    exact (histCore_ok hc).2.2.2.2.2.2.1

/-- Witness for claim C5 at the rounded bounds 70 and 75: `num_bins = 1`,
step `5/3`, and the three edges `70, 215/3, 220/3`. -/
theorem claim_C5_witness :
    stepOf 70 75 = 5/3 ∧
    (binsOf 70 75).getD 1 0 = vminRound 70 75 + 1 * stepOf 70 75 ∧
    binsOf 70 75 ≠ [] ∧
    vmaxForced 75 ≤ (binsOf 70 75).getLastD 0 + stepOf 70 75 := by
  obtain ⟨h1, h2, h3, h4⟩ := claim_C5.1 70 75
  exact ⟨by decide, h2 1 (by decide), (h4 (by decide)).1, (h4 (by decide)).2⟩

/-- The frequency list over the forced all-zero bins, for a population of
zeros: everything lands in the first bin `[0, 1/6)`. -/
theorem histCounts_allzero (vals : List ℚ) (hz : ∀ x ∈ vals, x = 0) :
    histCounts vals [0, 1/6, 1/3, 1/2, 2/3, 5/6] =
      [vals.length, 0, 0, 0, 0] := by
  unfold histCounts
  rw [show (([0, 1/6, 1/3, 1/2, 2/3, 5/6] : List ℚ).length - 1) = 5 from rfl]
  rw [show List.range 5 = [0, 1, 2, 3, 4] from rfl]
  simp only [List.map_cons, List.map_nil, List.cons.injEq, and_true]
  refine ⟨?_, ?_, ?_, ?_, ?_⟩
  · refine List.countP_eq_length.mpr ?_
    intro a ha
    rw [hz a ha]
    decide
  all_goals
    refine List.countP_eq_zero.mpr ?_
    intro a ha
    rw [hz a ha]
    decide

theorem listMax_head_zeros (n : ℕ) : listMax [n, 0, 0, 0, 0] = some n := by
  simp [listMax]

/-- Claim C6: `roundn` rounds down/up to the nearest multiple of a positive
base, and an all-zero series (precipitation-like, `var_max == var_min == 0`)
gets its rounded maximum forced to `1`, a nonzero base of `1/2` (no division
by zero), nonempty bins, and a valid `ylim`. -/
theorem claim_C6 :
    (∀ x b : ℚ, 0 < b →
      (roundn x b .down ≤ x ∧ x < roundn x b .down + b ∧
        ∃ k : ℤ, roundn x b .down = (k : ℚ) * b) ∧
      (x ≤ roundn x b .up ∧ roundn x b .up < x + b ∧
        ∃ k : ℤ, roundn x b .up = (k : ℚ) * b)) ∧
    (∀ (df : DF) (var : String) (ci ri : ℕ),
      colPair df var = some (ci, ri) →
      colVals df ci ++ colVals df ri ≠ [] →
      (∀ x ∈ colVals df ci ++ colVals df ri, x = 0) →
      ∃ c, histCore df var = .ok c ∧ c.vhi = 1 ∧ c.base = 1/2 ∧
        c.edges ≠ [] ∧ c.ylim.1 < c.ylim.2) := by
  constructor
  · intro x b hb
    exact ⟨⟨roundn_down_le x b hb, lt_roundn_down_add x b hb, ⟨⌊x / b⌋, rfl⟩⟩,
      ⟨le_roundn_up x b hb, roundn_up_lt_add x b hb, ⟨⌈x / b⌉, rfl⟩⟩⟩
  · intro df var ci ri hcp hne hz
    obtain ⟨vmin, hmin⟩ := listMin_isSome hne
    obtain ⟨vmax, hmax⟩ := listMax_isSome hne
    have hv0 : vmin = 0 := hz _ (listMin_mem hmin)
    have hV0 : vmax = 0 := hz _ (listMax_mem hmax)
    subst hv0 hV0
    have hzl : ∀ x ∈ colVals df ci, x = 0 := fun x hx =>
      hz x (List.mem_append_left _ hx)
    have hzr : ∀ x ∈ colVals df ri, x = 0 := fun x hx =>
      hz x (List.mem_append_right _ hx)
    have hbins : binsOf 0 0 = [0, 1/6, 1/3, 1/2, 2/3, 5/6] := by decide
    have hf : histCounts (colVals df ci) (binsOf 0 0) =
        [(colVals df ci).length, 0, 0, 0, 0] := by
      rw [hbins]
      exact histCounts_allzero _ hzl
    have hr : histCounts (colVals df ri) (binsOf 0 0) =
        [(colVals df ri).length, 0, 0, 0, 0] := by
      rw [hbins]
      exact histCounts_allzero _ hzr
    have hM : 1 ≤ max (colVals df ci).length (colVals df ri).length := by
      have hlen : 0 < (colVals df ci ++ colVals df ri).length :=
        List.length_pos.mpr hne
      rw [List.length_append] at hlen
      omega
    unfold histCore
    rw [hcp]
    dsimp only
    rw [hmin, hmax]
    dsimp only
    rw [hf, hr, listMax_head_zeros, listMax_head_zeros]
    dsimp only
    refine ⟨_, rfl, ?_, ?_, ?_, ?_⟩
    · show vmaxForced 0 = 1
      decide
    · show baseOf 0 = 1/2
      decide
    · show binsOf 0 0 ≠ []
      decide
    · show (0 : ℚ) < _ + _ / 5
      have hMq : (1 : ℚ) ≤
          ((max (colVals df ci).length (colVals df ri).length : ℕ) : ℚ) := by
        exact_mod_cast hM
      linarith

/-- Witness for claim C6: the rounding facts at `x = 7`, `b = 2`, and the
all-zero one-day precipitation frame. -/
theorem claim_C6_witness :
    (roundn 7 2 .down ≤ 7 ∧ (7 : ℚ) < roundn 7 2 .down + 2 ∧
      (7 : ℚ) ≤ roundn 7 2 .up) ∧
    (histCore dfZero "Precip In").toOption.map
      (fun c => (c.vhi, c.base, decide (c.edges ≠ []),
        decide (c.ylim.1 < c.ylim.2))) = some (1, 1/2, true, true) := by
  constructor
  · have h := claim_C6.1 7 2 (by norm_num)
    exact ⟨h.1.1, h.1.2.1, h.2.1⟩
  · obtain ⟨c, hc, h1, h2, h3, h4⟩ :=
      claim_C6.2 dfZero "Precip In" 0 1 (by decide) (by decide)
        (by decide)
    rw [hc]
    simp only [Except.toOption, Option.map_some', Option.some.injEq,
      Prod.mk.injEq]
    exact ⟨h1, h2, decide_eq_true h3, decide_eq_true h4⟩

/-- Strict order of two in-range positions of a strictly increasing list. -/
theorem pairwise_getD_lt {l : List ℚ} (hp : List.Pairwise (· < ·) l)
    {i j : ℕ} (hij : i < j) (hj : j < l.length) :
    l.getD i 0 < l.getD j 0 := by
  have hi : i < l.length := lt_trans hij hj
  rw [List.getD_eq_getElem _ _ hi, List.getD_eq_getElem _ _ hj]
  have h := List.pairwise_iff_get.mp hp ⟨i, hi⟩ ⟨j, hj⟩ hij
  simpa [List.get_eq_getElem] using h

/-- Claim C7, counterexample: with field values `[70, 72, 75, 71]` and the
paired column constantly `-5`, the selection value `72` lies at or above
every edge, the index falls back to the final bin `[65, 70]`, and that
highlighted interval does not contain `72` (while the title still reads
`"Min Temp: 72.00 F"`). -/
theorem claim_C7_counterexample :
    colVals dfNeg 0 = [70, 72, 75, 71] ∧
    lookupSel dfNeg "2020-01-02" 0 = some (some 72) ∧
    (create_hist dfNeg "2020-01-02" "Min Temp F").toOption.map
      (fun r => (r.highlight, r.edges.getD 14 0, r.edges.getD 15 0,
        decide (r.edges.getD 14 0 ≤ 72 ∧ (72 : ℚ) ≤ r.edges.getD 15 0),
        r.label)) =
      some (some 14, 65, 70, false, "Min Temp: 72.00 F") := by decide

/-- Claim C7 (amended): for a series whose field column reads
`[70, 72, 75, 71]` with the day valued `72` selected, every returning case
carries the title `"<field base name>: 72.00 <units>"` (the unit being the
name's last whitespace token), and whenever some bin edge exceeds `72` (as
holds for any paired values within the field's own range) the highlighted
bin's interval contains `72`. -/
theorem claim_C7 : ∀ (df : DF) (dt var : String) (r : HistResult)
    (c : BinCore),
    create_hist df dt var = .ok r →
    histCore df var = .ok c →
    colVals df c.ci = [70, 72, 75, 71] →
    lookupSel df dt c.ci = some (some 72) →
    r.label = varFieldOf var ++ ": " ++ "72.00" ++ " " ++ varUnitsOf var ∧
    ((∃ e ∈ r.edges, (72 : ℚ) < e) →
      ∃ i, r.highlight = some i ∧
        r.edges.getD i 0 ≤ 72 ∧ (72 : ℚ) < r.edges.getD (i + 1) 0) := by
  intro df dt var r c h hc hvals hsel
  obtain ⟨hcp, hmin, hmax, hbase, hvlo, hvhi, hbins, hfreqdef, hrefdef,
    fm, rm, hfm, hrm, hyl⟩ := histCore_ok hc
  -- the edge list has at least two entries
  have hne : c.freq ≠ [] := listMax_ne_nil hfm
  have hlen : c.freq.length = c.edges.length - 1 := by
    rw [hfreqdef, histCounts_length]
  have hpos : 0 < c.freq.length := List.length_pos.mpr hne
  have hlen2 : 2 ≤ c.edges.length := by omega
  -- the first edge is at most 72
  have hmem70 : (70 : ℚ) ∈ colVals df c.ci ++ colVals df c.ri := by
    refine List.mem_append_left _ ?_
    rw [hvals]
    exact List.mem_cons_self _ _
  have hvmin70 : c.vmin ≤ 70 := listMin_le hmin hmem70
  have hlenA : c.edges.length =
      arangeLen (vminRound c.vmin c.vmax) (vmaxForced c.vmax)
        (stepOf c.vmin c.vmax) := by
    rw [hbins]
    exact arange_length _ _ _
  have hedge0 : c.edges.getD 0 0 ≤ 72 := by
    have h0 : (0 : ℕ) < arangeLen (vminRound c.vmin c.vmax)
        (vmaxForced c.vmax) (stepOf c.vmin c.vmax) := by omega
    have hg := arange_getD (vminRound c.vmin c.vmax) (vmaxForced c.vmax)
      (stepOf c.vmin c.vmax) 0 h0
    rw [hbins]
    show (arange _ _ _).getD 0 0 ≤ 72
    rw [hg]
    have hdown : vminRound c.vmin c.vmax ≤ c.vmin :=
      roundn_down_le _ _ (baseOf_pos _)
    push_cast
    linarith
  -- the where-filter is nonempty, giving the last index i0
  have hFne : ((List.range c.edges.length).filter
      fun i => decide (c.edges.getD i 0 ≤ (72 : ℚ))) ≠ [] := by
    have h0F : (0 : ℕ) ∈ (List.range c.edges.length).filter
        fun i => decide (c.edges.getD i 0 ≤ (72 : ℚ)) := by
      rw [List.mem_filter, List.mem_range]
      exact ⟨by omega, decide_eq_true hedge0⟩
    exact List.ne_nil_of_mem h0F
  obtain ⟨i0, hi0⟩ := listMax_isSome hFne
  have hlast : lastIdxLE c.edges 72 = some i0 := hi0
  have hi0mem := listMax_mem hi0
  rw [List.mem_filter, List.mem_range] at hi0mem
  obtain ⟨hi0lt, hi0le'⟩ := hi0mem
  have hi0le : c.edges.getD i0 0 ≤ 72 := of_decide_eq_true hi0le'
  have hsorted : List.Pairwise (· < ·) c.edges := by
    rw [hbins]
    exact arange_pairwise (stepOf_pos _ _)
  -- reduce create_hist on this branch (in both highlight outcomes the
  -- label is the formatted 72)
  unfold create_hist at h
  rw [hc] at h
  simp only [Except.bind] at h
  rw [hsel] at h
  dsimp only at h
  rw [hlast] at h
  dsimp only at h
  injection h with h
  subst h
  constructor
  · show mkLabel var 72 = _
    unfold mkLabel
    rw [show fmt2 72 = "72.00" by decide]
  · intro hEdge
    change ∃ e ∈ c.edges, (72 : ℚ) < e at hEdge
    -- the final edge exceeds 72, so i0 is not the final index
    have hlastgt : 72 < c.edges.getD (c.edges.length - 1) 0 := by
      obtain ⟨e, heMem, heGt⟩ := hEdge
      obtain ⟨je, hje⟩ := List.mem_iff_get.mp heMem
      have hjlt : (je : ℕ) < c.edges.length := je.isLt
      have he2 : c.edges.getD (je : ℕ) 0 = e := by
        rw [List.getD_eq_getElem _ _ hjlt, ← List.get_eq_getElem]
        exact hje
      rcases Nat.lt_or_ge (je : ℕ) (c.edges.length - 1) with hjl | hjg
      · have h2 := pairwise_getD_lt hsorted hjl
          (show c.edges.length - 1 < c.edges.length by omega)
        rw [he2] at h2
        linarith
      · have hjeq : (je : ℕ) = c.edges.length - 1 := by omega
        rw [← hjeq, he2]
        exact heGt
    have hi0ne : i0 ≠ c.edges.length - 1 := by
      intro heq
      rw [heq] at hi0le
      linarith
    refine ⟨i0, ?_, hi0le, ?_⟩
    · show some (if i0 = c.edges.length - 1 then i0 - 1 else i0) = some i0
      rw [if_neg hi0ne]
    · -- the next edge exceeds 72, else i0 would not be the last such index
      have hnext : i0 + 1 < c.edges.length := by omega
      by_contra hle
      push_neg at hle
      have hmemF : (i0 + 1) ∈ (List.range c.edges.length).filter
          fun i => decide (c.edges.getD i 0 ≤ (72 : ℚ)) := by
        rw [List.mem_filter, List.mem_range]
        exact ⟨hnext, decide_eq_true hle⟩
      have := le_listMax hi0 hmemF
      omega

/-- Witness for claim C7: paired values inside the field's range give edges
`70, 215/3, 220/3`; the title reads `"Min Temp: 72.00 F"`, the bin
`[215/3, 220/3)` is highlighted and contains `72`. -/
theorem claim_C7_witness :
    (create_hist dfPair "2020-01-02" "Min Temp F").toOption.map
      (fun r => (r.highlight,
        decide (r.edges.getD 1 0 ≤ 72 ∧ (72 : ℚ) < r.edges.getD 2 0),
        r.label)) = some (some 1, true, "Min Temp: 72.00 F") := by
  rcases hr : create_hist dfPair "2020-01-02" "Min Temp F" with e | r
  · have hok : (create_hist dfPair "2020-01-02" "Min Temp F").toOption ≠
        none := by decide
    rw [hr] at hok
    exact absurd rfl hok
  · rcases hcc : histCore dfPair "Min Temp F" with e | c
    · have hok : (histCore dfPair "Min Temp F").toOption ≠ none := by decide
      rw [hcc] at hok
      exact absurd rfl hok
    · have hci : c.ci = 0 := by
        have h0 : (histCore dfPair "Min Temp F").toOption.map
            (fun c => c.ci) = some 0 := by decide
        rw [hcc] at h0
        simpa [Except.toOption] using h0
      have hE : r.edges = [70, 215/3, 220/3] := by
        have h0 : (create_hist dfPair "2020-01-02" "Min Temp F").toOption.map
            (fun r => r.edges) = some [70, 215/3, 220/3] := by decide
        rw [hr] at h0
        simpa [Except.toOption] using h0
      have hEdge : ∃ e ∈ r.edges, (72 : ℚ) < e := by
        refine ⟨220/3, ?_, by norm_num⟩
        rw [hE]
        decide
      obtain ⟨hlabel, hcont⟩ :=
        claim_C7 dfPair "2020-01-02" "Min Temp F" r c hr hcc
          (by rw [hci]; decide) (by rw [hci]; decide)
      obtain ⟨i, hhi, hle, hlt⟩ := hcont hEdge
      have hH : r.highlight = some 1 := by
        have h0 : (create_hist dfPair "2020-01-02" "Min Temp F").toOption.map
            (fun r => r.highlight) = some (some 1) := by decide
        rw [hr] at h0
        simpa [Except.toOption] using h0
      have hi1 : i = 1 := by
        rw [hH] at hhi
        exact (Option.some.inj hhi).symm
      subst hi1
      simp only [Except.toOption, Option.map_some', Option.some.injEq,
        Prod.mk.injEq]
      refine ⟨hH, ?_, ?_⟩
      · rw [decide_eq_true_eq]
        exact ⟨hle, hlt⟩
      · rw [hlabel]
        decide
